import Mathlib

/-!
Shallow embedding of the PyPSA-Eur country-specific discount-rate helpers
(`scripts/_helpers_discount_rates.py`) and the district-heating share
projector (`scripts/build_district_heat_share.py`).

Modelling conventions:
- Python floats are modelled as exact rationals (ℚ).
- Python dicts are modelled as association lists `List (String × ℚ)`;
  `dict.get` / `in` become `lookupQ` / `(lookupQ _).isSome`.
- pandas DataFrames become lists of row structures; in-place mutation of a
  caller-supplied table is modelled by returning the updated table.
- A Python `raise` (and a `KeyError` from mandatory indexing) is modelled by
  an `Option` result being `none`.
- The float exponent `(1 + r) ** (-lifetime)` is modelled with a natural
  lifetime, `((1 + r) ^ lifetime)⁻¹`, which keeps the value rational; the
  source only ever calls it with the integer lifetime 25.
-/

/-- Association-list lookup, modelling Python `dict` access:
`lookupQ m k = some v` iff key `k` is present (first binding wins). -/
def lookupQ (m : List (String × ℚ)) (k : String) : Option ℚ :=
  (m.find? (fun p => p.1 == k)).map (fun p => p.2)

/-- The costs configuration block: optional per-country discount-rate table
(`country_specific_discountrate`, absent key ≡ empty list) and the optional
global rate (`social_discountrate`). -/
structure CostsConfig where
  country_specific_discountrate : List (String × ℚ)
  social_discountrate : Option ℚ
deriving DecidableEq, Repr

/-- `get_country_discount_rate` from `_helpers_discount_rates.py`:
country-specific entry if present, else the global `social_discountrate`
if defined, else the hardcoded default 0.07. -/
def get_country_discount_rate (country_code : String) (costs_config : CostsConfig) : ℚ :=
  match lookupQ costs_config.country_specific_discountrate country_code with
  | some rate => rate
  | none =>
    match costs_config.social_discountrate with
    | some global_rate => global_rate
    | none => 7/100

/-- `calculate_annuity_simple` from `_helpers_discount_rates.py`:
`1/L` at zero rate, else `r / (1 - (1+r)^(-L))`. -/
def calculate_annuity_simple (lifetime : ℕ) (discount_rate : ℚ) : ℚ :=
  if discount_rate = 0 then 1 / (lifetime : ℚ)
  else discount_rate / (1 - ((1 + discount_rate) ^ lifetime)⁻¹)

/-- One row of the technology cost table: technology name (index),
`discount rate` column, an arbitrary further data column, and the `country`
column that multi-country expansion adds (`none` before expansion). -/
structure CostRow where
  technology : String
  discount_rate : ℚ
  other_data : ℚ
  country : Option String
deriving DecidableEq, Repr

/-- `apply_country_specific_costs` from `_helpers_discount_rates.py`.
For more than one country the cost table is duplicated once per country
(compound (country, technology) key, `country` column added) with the
`discount rate` column overwritten by each country's resolved rate; for one
country the table's `discount rate` column is overwritten in place.
`countries[0]` on an empty country list raises `IndexError` (`none`). -/
def apply_country_specific_costs (costs : List CostRow) (countries : List String)
    (costs_config : CostsConfig) : Option (List CostRow) :=
  if countries.length > 1 then
    some (countries.flatMap (fun country =>
      costs.map (fun row =>
        { row with
          discount_rate := get_country_discount_rate country costs_config
          country := some country })))
  else
    match countries with
    | [] => none
    | country :: _ =>
      some (costs.map (fun row =>
        { row with discount_rate := get_country_discount_rate country costs_config }))

/-- One row of a network component table: identifier (index), `bus` and
`country` column cells, the `capital_cost` cell and one further column. -/
structure CompRow where
  idx : String
  bus : String
  country : String
  capital_cost : ℚ
  other_data : ℚ
deriving DecidableEq, Repr

/-- A network component table (generators / storage_units / stores / links):
which of the optional columns exist, plus the rows. -/
structure Component where
  hasBus : Bool
  hasCountry : Bool
  hasCapitalCost : Bool
  rows : List CompRow
deriving DecidableEq, Repr

/-- Per-row country derivation of `_apply_to_component_improved`: first two
characters of `bus` if that column exists, else the `country` column, else
the first two characters of the row identifier. -/
def deriveCountry (comp : Component) (row : CompRow) : String :=
  if comp.hasBus then (row.bus.take 2)
  else if comp.hasCountry then row.country
  else (row.idx.take 2)

/-- The adjustment condition of `_apply_to_component_improved`: the derived
country has a country-specific rate and it differs from the global rate by
more than the 0.001 tolerance. -/
def adjustCond (country_rates : List (String × ℚ)) (global_rate : ℚ)
    (comp : Component) (row : CompRow) : Bool :=
  match lookupQ country_rates (deriveCountry comp row) with
  | some country_rate => decide (|country_rate - global_rate| > 1/1000)
  | none => false

/-- The per-row update of `_apply_to_component_improved`: when the condition
holds, `capital_cost` is multiplied by
`calculate_annuity_simple 25 r_country / calculate_annuity_simple 25 r_global`. -/
def adjustRow (country_rates : List (String × ℚ)) (global_rate : ℚ)
    (comp : Component) (row : CompRow) : CompRow :=
  match lookupQ country_rates (deriveCountry comp row) with
  | some country_rate =>
    if |country_rate - global_rate| > 1/1000 then
      { row with
        capital_cost := row.capital_cost *
          (calculate_annuity_simple 25 country_rate / calculate_annuity_simple 25 global_rate) }
    else row
  | none => row

/-- `_apply_to_component_improved` from `_helpers_discount_rates.py`:
empty tables and tables without a `capital_cost` column are left alone with
count 0; otherwise every row meeting `adjustCond` has its `capital_cost`
rescaled and the function returns `len(changed_components)`, the number of
rows meeting the condition. In-place mutation is modelled by returning the
updated component alongside the count. -/
def apply_to_component_improved (comp : Component) (country_rates : List (String × ℚ))
    (global_rate : ℚ) : Component × ℕ :=
  if comp.rows.isEmpty then (comp, 0)
  else if comp.hasCapitalCost = false then (comp, 0)
  else ({ comp with rows := comp.rows.map (adjustRow country_rates global_rate comp) },
        (comp.rows.filter (fun row => adjustCond country_rates global_rate comp row)).length)

/-- The four component tables of a PyPSA network that the adjuster visits. -/
structure Network where
  generators : Component
  storage_units : Component
  stores : Component
  links : Component
deriving DecidableEq, Repr

/-- The per-component step of `apply_country_discount_rates_to_network`:
only non-empty tables are put on `components_to_process` (an empty table is
skipped, contributing 0). -/
def processComponent (comp : Component) (country_rates : List (String × ℚ))
    (global_rate : ℚ) : Component × ℕ :=
  if comp.rows.isEmpty then (comp, 0)
  else apply_to_component_improved comp country_rates global_rate

/-- `apply_country_discount_rates_to_network` from `_helpers_discount_rates.py`.
`costs_config["social_discountrate"]` raises `KeyError` when absent (`none`);
an empty country-rate table returns early, touching nothing. The Python
function mutates the network in place, computes `total_adjustments` (the sum
of the per-component counts over generators, storage_units, stores, links)
for its log message and returns `None`; the embedding returns the updated
network together with that computed total. -/
def apply_country_discount_rates_to_network (net : Network) (costs_config : CostsConfig) :
    Option (Network × ℕ) :=
  match costs_config.social_discountrate with
  | none => none
  | some global_rate =>
    let country_rates := costs_config.country_specific_discountrate
    if country_rates.isEmpty then some (net, 0)
    else
      let pg := processComponent net.generators country_rates global_rate
      let psu := processComponent net.storage_units country_rates global_rate
      let pst := processComponent net.stores country_rates global_rate
      let pl := processComponent net.links country_rates global_rate
      some (⟨pg.1, psu.1, pst.1, pl.1⟩, pg.2 + psu.2 + pst.2 + pl.2)

/-- One row of the clustered population layout: node name (index), country
code `ct`, urban and rural population, and the node's share `fraction` of its
country's total population. -/
structure PopRow where
  name : String
  ct : String
  urban : ℚ
  rural : ℚ
  fraction : ℚ
deriving DecidableEq, Repr

/-- `pop_layout.urban.groupby(pop_layout.ct).sum()`: total urban population
of a country across its nodes. -/
def ct_urban (pop : List PopRow) (c : String) : ℚ :=
  ((pop.filter (fun n => n.ct == c)).map (fun n => n.urban)).sum

/-- The `sector.district_heating.potential` configuration: a scalar ceiling
for all countries, or a per-country mapping (with an optional `default` key). -/
inductive Potential where
  | scalar (v : ℚ)
  | mapping (m : List (String × ℚ))
deriving DecidableEq, Repr

/-- The `central_fraction` resolution block of `build_district_heat_share.py`:
a scalar broadcasts to every node; for a mapping, countries of the population
layout missing from the mapping fall back to its `default` entry, and if some
country is uncovered and there is no `default` a `ValueError` is raised
(`none`). Returns the per-node ceiling (`pop_layout.ct.map(central_fraction)`). -/
def centralFractionPerNode (pot : Potential) (pop : List PopRow) : Option (List ℚ) :=
  match pot with
  | .scalar v => some (pop.map (fun _ => v))
  | .mapping m =>
    let uncovered := (pop.map (fun n => n.ct)).filter (fun c => (lookupQ m c).isNone)
    if uncovered.isEmpty then
      some (pop.map (fun n => (lookupQ m n.ct).getD 0))
    else
      match lookupQ m "default" with
      | none => none
      | some d => some (pop.map (fun n => (lookupQ m n.ct).getD d))

/-- One row of the output table of `build_district_heat_share.py`. -/
structure HeatShareRow where
  original : ℚ
  dist : ℚ
  urban : ℚ
deriving DecidableEq, Repr

/-- The per-node arithmetic of `build_district_heat_share.py` (lines 55-107):
broadcast historical country share (missing country ↦ 0), urban-within-country
fraction, nodal urban fraction, initial `dist_fraction_node`, raising the
urban fraction to the district share where exceeded, the clipped headroom
`diff`, and the progress step. -/
def projectNode (pop : List PopRow) (dhs : List (String × ℚ)) (progress : ℚ)
    (n : PopRow) (cf : ℚ) : HeatShareRow :=
  let share := (lookupQ dhs n.ct).getD 0
  let ucf := n.urban / ct_urban pop n.ct
  let uf0 := n.urban / (n.rural + n.urban)
  let dist0 := share * ucf / n.fraction
  let uf := max uf0 dist0
  let diff := max 0 (uf * cf - dist0)
  { original := share, dist := dist0 + diff * progress, urban := uf }

/-- The `__main__` projection of `build_district_heat_share.py` as a function
of its loaded inputs: population layout, historical per-country district-heat
share for the chosen year, potential configuration, and the progress factor
already looked up for the investment year (the `get` helper is an external
collaborator). `none` models the `ValueError` raised during potential
resolution, before any output is produced. -/
def build_district_heat_share (pop : List PopRow) (dhs : List (String × ℚ))
    (pot : Potential) (progress : ℚ) : Option (List HeatShareRow) :=
  (centralFractionPerNode pot pop).map (fun cfs =>
    (pop.zip cfs).map (fun p => projectNode pop dhs progress p.1 p.2))

/-! ## Helper lemmas -/

theorem zip_getElem?_of_both {α β : Type} : ∀ (l1 : List α) (l2 : List β) (i : ℕ) (a : α) (b : β),
    l1[i]? = some a → l2[i]? = some b → (l1.zip l2)[i]? = some (a, b) := by
  intro l1
  induction l1 with
  | nil => intro l2 i a b h1 _; simp at h1
  | cons x xs ih =>
    intro l2 i a b h1 h2
    cases l2 with
    | nil => simp at h2
    | cons y ys =>
      cases i with
      | zero => simp_all
      | succ n => simpa using ih ys n a b (by simpa using h1) (by simpa using h2)

theorem zip_getElem?_inv {α β : Type} : ∀ (l1 : List α) (l2 : List β) (i : ℕ) (c : α × β),
    (l1.zip l2)[i]? = some c → l1[i]? = some c.1 ∧ l2[i]? = some c.2 := by
  intro l1
  induction l1 with
  | nil => intro l2 i c h; simp at h
  | cons x xs ih =>
    intro l2 i c h
    cases l2 with
    | nil => simp at h
    | cons y ys =>
      cases i with
      | zero =>
        simp only [List.zip_cons_cons, List.getElem?_cons_zero, Option.some.injEq] at h
        simp [← h]
      | succ n => simpa using ih ys n c (by simpa using h)

theorem annuity_mul_sum (L : ℕ) (r : ℚ) (hx : (1 : ℚ) + r ≠ 0) :
    r * ∑ j ∈ Finset.range L, ((1 + r) ^ (j + 1))⁻¹ = 1 - ((1 + r) ^ L)⁻¹ := by
  induction L with
  | zero => simp
  | succ n ih =>
    rw [Finset.sum_range_succ, mul_add, ih]
    have hp : (1 + r) ^ n ≠ 0 := pow_ne_zero _ hx
    have hp2 : (1 + r) ^ (n + 1) ≠ 0 := pow_ne_zero _ hx
    field_simp
    ring

theorem annuity_eq_inv_sum (L : ℕ) (r : ℚ) (hr : 0 < r) :
    calculate_annuity_simple L r = (∑ j ∈ Finset.range L, ((1 + r) ^ (j + 1))⁻¹)⁻¹ := by
  have hr0 : r ≠ 0 := ne_of_gt hr
  have hx : (1 : ℚ) + r ≠ 0 := by linarith
  rw [calculate_annuity_simple, if_neg hr0, ← annuity_mul_sum L r hx,
    div_mul_cancel_left₀ hr0]

theorem annuity_strict_mono (L : ℕ) (hL : 0 < L) {r1 r2 : ℚ} (h1 : 0 < r1) (h12 : r1 < r2) :
    calculate_annuity_simple L r1 < calculate_annuity_simple L r2 := by
  have h2 : 0 < r2 := h1.trans h12
  rw [annuity_eq_inv_sum L r1 h1, annuity_eq_inv_sum L r2 h2]
  have hne : (Finset.range L).Nonempty := Finset.nonempty_range_iff.mpr (Nat.pos_iff_ne_zero.mp hL)
  have hterm : ∀ j ∈ Finset.range L, ((1 + r2) ^ (j + 1))⁻¹ < ((1 + r1) ^ (j + 1))⁻¹ := by
    intro j _
    have hb : (0 : ℚ) < (1 + r1) ^ (j + 1) := by positivity
    exact inv_strictAnti₀ hb (pow_lt_pow_left₀ (by linarith) (by linarith) (Nat.succ_ne_zero j))
  have hsum : ∑ j ∈ Finset.range L, ((1 + r2) ^ (j + 1))⁻¹ <
      ∑ j ∈ Finset.range L, ((1 + r1) ^ (j + 1))⁻¹ :=
    Finset.sum_lt_sum_of_nonempty hne hterm
  have hpos : 0 < ∑ j ∈ Finset.range L, ((1 + r2) ^ (j + 1))⁻¹ :=
    Finset.sum_pos (fun j _ => by positivity) hne
  exact inv_strictAnti₀ hpos hsum

/-! ## Claim theorems -/

/-- C1: discount-rate resolution is a total three-tier fallback. For every
country code, a country-specific entry wins; otherwise the global
`social_discountrate` is used when defined; otherwise the hardcoded default
0.07. `get_country_discount_rate` is a total function (it never fails), and
the three exhaustive cases below determine its value completely. -/
theorem C1_resolver_three_tier_fallback (c : String) (cfg : CostsConfig) (r g : ℚ) :
    (lookupQ cfg.country_specific_discountrate c = some r →
      get_country_discount_rate c cfg = r) ∧
    (lookupQ cfg.country_specific_discountrate c = none →
      cfg.social_discountrate = some g →
      get_country_discount_rate c cfg = g) ∧
    (lookupQ cfg.country_specific_discountrate c = none →
      cfg.social_discountrate = none →
      get_country_discount_rate c cfg = 7/100) := by
  refine ⟨fun h1 => ?_, fun h1 h2 => ?_, fun h1 h2 => ?_⟩ <;>
    simp [get_country_discount_rate, h1] <;> simp [h2]

/-- Witness for C1: all three fallback tiers realised on concrete configs. -/
theorem C1_resolver_three_tier_fallback_witness :
    get_country_discount_rate "UA" ⟨[("UA", 12/100)], some (5/100)⟩ = 12/100 ∧
    get_country_discount_rate "DE" ⟨[("UA", 12/100)], some (5/100)⟩ = 5/100 ∧
    get_country_discount_rate "DE" ⟨[("UA", 12/100)], none⟩ = 7/100 := by
  refine ⟨(C1_resolver_three_tier_fallback "UA" ⟨[("UA", 12/100)], some (5/100)⟩
      (12/100) 0).1 (by simp [lookupQ]),
    (C1_resolver_three_tier_fallback "DE" ⟨[("UA", 12/100)], some (5/100)⟩
      0 (5/100)).2.1 (by simp [lookupQ]) rfl,
    (C1_resolver_three_tier_fallback "DE" ⟨[("UA", 12/100)], none⟩
      0 0).2.2 (by simp [lookupQ]) rfl⟩

/-- C4: the annuity factor equals `1/L` at rate 0, equals
`r / (1 - (1+r)^(-L))` for every nonzero rate, and is strictly increasing in
the rate on `r > 0` at fixed positive lifetime. -/
theorem C4_annuity_properties (L : ℕ) (hL : 0 < L) (r r1 r2 : ℚ) :
    calculate_annuity_simple L 0 = 1 / (L : ℚ) ∧
    (r ≠ 0 → calculate_annuity_simple L r = r / (1 - (1 + r) ^ (-(L : ℤ)))) ∧
    (0 < r1 → r1 < r2 →
      calculate_annuity_simple L r1 < calculate_annuity_simple L r2) := by
  refine ⟨?_, fun hr => ?_, fun h1 h12 => annuity_strict_mono L hL h1 h12⟩
  · rw [calculate_annuity_simple, if_pos rfl]
  · rw [calculate_annuity_simple, if_neg hr, zpow_neg, zpow_natCast]

/-- Witness for C4 at lifetime 1 and rates 0, 1 and 2. -/
theorem C4_annuity_properties_witness :
    calculate_annuity_simple 1 0 = 1 / ((1 : ℕ) : ℚ) ∧
    calculate_annuity_simple 1 1 = 1 / (1 - (1 + 1 : ℚ) ^ (-((1 : ℕ) : ℤ))) ∧
    calculate_annuity_simple 1 1 < calculate_annuity_simple 1 2 := by
  obtain ⟨a, b, c⟩ := C4_annuity_properties 1 (by norm_num) 1 1 2
  exact ⟨a, b (by norm_num), c (by norm_num) (by norm_num)⟩

/-- C5: multi-country cost expansion duplicates the table once per country
(row count `len(countries) * len(costs)`), stamping each copy with the
country and its resolved discount rate; a single country overwrites the
`discount rate` column of the original table, keeping its row count. -/
theorem C5_cost_expansion (costs : List CostRow) (countries : List String) (cfg : CostsConfig) :
    (countries.length > 1 →
      ∃ out, apply_country_specific_costs costs countries cfg = some out ∧
        out.length = countries.length * costs.length ∧
        (∀ row ∈ out, ∃ c ∈ countries, row.country = some c ∧
          row.discount_rate = get_country_discount_rate c cfg) ∧
        (∀ c ∈ countries, ∀ r0 ∈ costs,
          ({ r0 with discount_rate := get_country_discount_rate c cfg,
                     country := some c } : CostRow) ∈ out)) ∧
    (∀ c, countries = [c] →
      apply_country_specific_costs costs countries cfg =
        some (costs.map (fun r0 =>
          { r0 with discount_rate := get_country_discount_rate c cfg })) ∧
      (costs.map (fun r0 =>
          { r0 with discount_rate := get_country_discount_rate c cfg })).length =
        costs.length) := by
  constructor
  · intro h
    refine ⟨_, by rw [apply_country_specific_costs.eq_def, if_pos h], ?_, ?_, ?_⟩
    · rw [List.length_flatMap]
      simp [Function.comp_def, List.map_const', List.sum_replicate, smul_eq_mul]
    · intro row hrow
      simp only [List.mem_flatMap, List.mem_map] at hrow
      obtain ⟨c, hc, r0, _, rfl⟩ := hrow
      exact ⟨c, hc, rfl, rfl⟩
    · intro c hc r0 hr0
      simp only [List.mem_flatMap, List.mem_map]
      exact ⟨c, hc, r0, hr0, rfl⟩
  · rintro c rfl
    exact ⟨by simp [apply_country_specific_costs], List.length_map _ _⟩

/-- Witness for C5: one technology, countries `["DE", "FR"]` (expansion) and
`["DE"]` (in-place overwrite), with a country-specific rate for `DE`. -/
theorem C5_cost_expansion_witness :
    (∃ out, apply_country_specific_costs [⟨"onwind", 7/100, 5, none⟩] ["DE", "FR"]
        ⟨[("DE", 3/100)], some (7/100)⟩ = some out ∧ out.length = 2) ∧
    apply_country_specific_costs [⟨"onwind", 7/100, 5, none⟩] ["DE"]
        ⟨[("DE", 3/100)], some (7/100)⟩ = some [⟨"onwind", 3/100, 5, none⟩] := by
  have hm := (C5_cost_expansion [⟨"onwind", 7/100, 5, none⟩] ["DE", "FR"]
    ⟨[("DE", 3/100)], some (7/100)⟩).1 (by norm_num)
  have hs := (C5_cost_expansion [⟨"onwind", 7/100, 5, none⟩] ["DE"]
    ⟨[("DE", 3/100)], some (7/100)⟩).2 "DE" rfl
  obtain ⟨out, ho, hlen, _, _⟩ := hm
  refine ⟨⟨out, ho, by simpa using hlen⟩, ?_⟩
  rw [hs.1]
  rfl

theorem adjustRow_fields (cr : List (String × ℚ)) (g : ℚ) (comp : Component) (row : CompRow) :
    (adjustRow cr g comp row).idx = row.idx ∧
    (adjustRow cr g comp row).bus = row.bus ∧
    (adjustRow cr g comp row).country = row.country ∧
    (adjustRow cr g comp row).other_data = row.other_data := by
  rcases hl : lookupQ cr (deriveCountry comp row) with _ | rc
  · simp [adjustRow, hl]
  · simp only [adjustRow, hl]
    split
    · exact ⟨rfl, rfl, rfl, rfl⟩
    · exact ⟨rfl, rfl, rfl, rfl⟩

theorem adjustRow_of_cond_false (cr : List (String × ℚ)) (g : ℚ) (comp : Component)
    (row : CompRow) (h : adjustCond cr g comp row = false) :
    adjustRow cr g comp row = row := by
  unfold adjustCond at h
  rcases hl : lookupQ cr (deriveCountry comp row) with _ | rc
  · simp only [adjustRow, hl]
  · rw [hl] at h
    simp only [decide_eq_false_iff_not] at h
    simp only [adjustRow, hl]
    rw [if_neg h]

theorem apply_to_component_rows_getElem (comp : Component) (cr : List (String × ℚ)) (g : ℚ)
    (hcc : comp.hasCapitalCost = true) (i : ℕ) (row : CompRow)
    (hrow : comp.rows[i]? = some row) :
    (apply_to_component_improved comp cr g).1.rows[i]? = some (adjustRow cr g comp row) := by
  have hne : comp.rows.isEmpty = false := by
    rcases h : comp.rows.isEmpty with _ | _
    · rfl
    · rw [List.isEmpty_iff.mp h] at hrow
      simp at hrow
  simp only [apply_to_component_improved, hne, hcc, Bool.false_eq_true, if_false,
    Bool.true_eq_false, List.getElem?_map, hrow, Option.map_some']

/-- C6: a component row is left entirely unchanged when its derived country
has no country-specific rate, or when that rate is within the 0.001
tolerance of the global rate; when it differs by more, only its
`capital_cost` is rescaled by `annuity(25, r_country) / annuity(25, r_global)`.
With an empty country-specific rate table the network-level adjuster leaves
every component of every kind untouched. -/
theorem C6_adjustment_factor_cases (comp : Component) (cr : List (String × ℚ)) (g : ℚ)
    (hcc : comp.hasCapitalCost = true) (i : ℕ) (row : CompRow)
    (hrow : comp.rows[i]? = some row) :
    ((lookupQ cr (deriveCountry comp row) = none →
      (apply_to_component_improved comp cr g).1.rows[i]? = some row) ∧
     (∀ rc, lookupQ cr (deriveCountry comp row) = some rc → |rc - g| ≤ 1/1000 →
      (apply_to_component_improved comp cr g).1.rows[i]? = some row) ∧
     (∀ rc, lookupQ cr (deriveCountry comp row) = some rc → |rc - g| > 1/1000 →
      (apply_to_component_improved comp cr g).1.rows[i]? = some
        { row with capital_cost := row.capital_cost *
            (calculate_annuity_simple 25 rc / calculate_annuity_simple 25 g) })) ∧
    (∀ (net : Network) (gr : ℚ),
      apply_country_discount_rates_to_network net ⟨[], some gr⟩ = some (net, 0)) := by
  have key := apply_to_component_rows_getElem comp cr g hcc i row hrow
  refine ⟨⟨fun h => ?_, fun rc h hle => ?_, fun rc h hgt => ?_⟩, fun net gr => rfl⟩
  · rw [key]
    simp only [adjustRow, h]
  · rw [key]
    simp only [adjustRow, h]
    rw [if_neg (not_lt.mpr hle)]
  · rw [key]
    simp only [adjustRow, h]
    rw [if_pos hgt]

/-- Witness for C6: three generator rows hitting the three cases (no rate for
`XX`, rate equal to the global rate for `DE`, rate 2 vs global 1 for `FR`),
plus the empty-rate-table no-op at the network level. -/
theorem C6_adjustment_factor_cases_witness :
    ((apply_to_component_improved
        ⟨true, false, true, [⟨"XX0 gen", "XX0", "", 100, 1⟩, ⟨"DE0 gen", "DE0", "", 100, 1⟩,
          ⟨"FR0 gen", "FR0", "", 100, 1⟩]⟩ [("DE", 1), ("FR", 2)] 1).1.rows[0]? =
      some ⟨"XX0 gen", "XX0", "", 100, 1⟩) ∧
    ((apply_to_component_improved
        ⟨true, false, true, [⟨"XX0 gen", "XX0", "", 100, 1⟩, ⟨"DE0 gen", "DE0", "", 100, 1⟩,
          ⟨"FR0 gen", "FR0", "", 100, 1⟩]⟩ [("DE", 1), ("FR", 2)] 1).1.rows[1]? =
      some ⟨"DE0 gen", "DE0", "", 100, 1⟩) ∧
    ((apply_to_component_improved
        ⟨true, false, true, [⟨"XX0 gen", "XX0", "", 100, 1⟩, ⟨"DE0 gen", "DE0", "", 100, 1⟩,
          ⟨"FR0 gen", "FR0", "", 100, 1⟩]⟩ [("DE", 1), ("FR", 2)] 1).1.rows[2]? =
      some ⟨"FR0 gen", "FR0", "", 100 *
        (calculate_annuity_simple 25 2 / calculate_annuity_simple 25 1), 1⟩) ∧
    (apply_country_discount_rates_to_network
      ⟨⟨true, false, true, []⟩, ⟨true, false, true, []⟩, ⟨true, false, true, []⟩,
       ⟨true, false, true, []⟩⟩ ⟨[], some 1⟩ =
      some (⟨⟨true, false, true, []⟩, ⟨true, false, true, []⟩, ⟨true, false, true, []⟩,
       ⟨true, false, true, []⟩⟩, 0)) := by
  refine ⟨?_, ?_, ?_, ?_⟩
  · exact (C6_adjustment_factor_cases ⟨true, false, true, [⟨"XX0 gen", "XX0", "", 100, 1⟩, ⟨"DE0 gen", "DE0", "", 100, 1⟩,
          ⟨"FR0 gen", "FR0", "", 100, 1⟩]⟩ [("DE", 1), ("FR", 2)] 1 rfl 0
      ⟨"XX0 gen", "XX0", "", 100, 1⟩ rfl).1.1 rfl
  · exact (C6_adjustment_factor_cases ⟨true, false, true, [⟨"XX0 gen", "XX0", "", 100, 1⟩, ⟨"DE0 gen", "DE0", "", 100, 1⟩,
          ⟨"FR0 gen", "FR0", "", 100, 1⟩]⟩ [("DE", 1), ("FR", 2)] 1 rfl 1
      ⟨"DE0 gen", "DE0", "", 100, 1⟩ rfl).1.2.1 1 rfl (by norm_num)
  · exact (C6_adjustment_factor_cases ⟨true, false, true, [⟨"XX0 gen", "XX0", "", 100, 1⟩, ⟨"DE0 gen", "DE0", "", 100, 1⟩,
          ⟨"FR0 gen", "FR0", "", 100, 1⟩]⟩ [("DE", 1), ("FR", 2)] 1 rfl 2
      ⟨"FR0 gen", "FR0", "", 100, 1⟩ rfl).1.2.2 2 rfl (by norm_num)
  · exact (C6_adjustment_factor_cases ⟨true, false, true, [⟨"XX0 gen", "XX0", "", 100, 1⟩]⟩
      [("DE", 1)] 1 rfl 0 ⟨"XX0 gen", "XX0", "", 100, 1⟩ rfl).2 _ 1

/-- C10: the per-component adjuster touches only the `capital_cost` column:
column flags, row count and the identifier / bus / country / other columns
are identical before and after, and rows not meeting the adjustment
condition keep their `capital_cost` exactly. -/
theorem C10_frame_only_capital_cost (comp : Component) (cr : List (String × ℚ)) (g : ℚ) :
    ((apply_to_component_improved comp cr g).1.hasBus = comp.hasBus ∧
     (apply_to_component_improved comp cr g).1.hasCountry = comp.hasCountry ∧
     (apply_to_component_improved comp cr g).1.hasCapitalCost = comp.hasCapitalCost) ∧
    (apply_to_component_improved comp cr g).1.rows.length = comp.rows.length ∧
    ((apply_to_component_improved comp cr g).1.rows.map CompRow.idx =
        comp.rows.map CompRow.idx ∧
     (apply_to_component_improved comp cr g).1.rows.map CompRow.bus =
        comp.rows.map CompRow.bus ∧
     (apply_to_component_improved comp cr g).1.rows.map CompRow.country =
        comp.rows.map CompRow.country ∧
     (apply_to_component_improved comp cr g).1.rows.map CompRow.other_data =
        comp.rows.map CompRow.other_data) ∧
    (∀ (i : ℕ) (r r0 : CompRow),
      (apply_to_component_improved comp cr g).1.rows[i]? = some r →
      comp.rows[i]? = some r0 → adjustCond cr g comp r0 = false →
      r.capital_cost = r0.capital_cost) := by
  have hsplit : (apply_to_component_improved comp cr g).1 = comp ∨
      (apply_to_component_improved comp cr g).1 =
        { comp with rows := comp.rows.map (adjustRow cr g comp) } := by
    unfold apply_to_component_improved
    split
    · exact Or.inl rfl
    · split
      · exact Or.inl rfl
      · exact Or.inr rfl
  rcases hsplit with h | h <;> rw [h]
  · refine ⟨⟨rfl, rfl, rfl⟩, rfl, ⟨rfl, rfl, rfl, rfl⟩, fun i r r0 h1 h2 _ => ?_⟩
    rw [h1] at h2
    injection h2 with h2
    rw [h2]
  · refine ⟨⟨rfl, rfl, rfl⟩, List.length_map _ _, ⟨?_, ?_, ?_, ?_⟩,
      fun i r r0 h1 h2 hcnd => ?_⟩
    · rw [List.map_map]
      exact List.map_congr_left fun a _ => (adjustRow_fields cr g comp a).1
    · rw [List.map_map]
      exact List.map_congr_left fun a _ => (adjustRow_fields cr g comp a).2.1
    · rw [List.map_map]
      exact List.map_congr_left fun a _ => (adjustRow_fields cr g comp a).2.2.1
    · rw [List.map_map]
      exact List.map_congr_left fun a _ => (adjustRow_fields cr g comp a).2.2.2
    · rw [List.getElem?_map, h2, Option.map_some'] at h1
      rw [adjustRow_of_cond_false cr g comp r0 hcnd] at h1
      injection h1 with h1
      rw [← h1]

/-- Witness for C10: a one-row generators table whose country `DE` has no
entry in the rate table `[("FR", 1)]`, so nothing changes. -/
theorem C10_frame_only_capital_cost_witness :
    ((apply_to_component_improved ⟨true, false, true, [⟨"DE0 gen", "DE0", "", 7, 3⟩]⟩
        [("FR", 1)] 0).1.rows.map CompRow.idx =
      ([⟨"DE0 gen", "DE0", "", 7, 3⟩] : List CompRow).map CompRow.idx) ∧
    (⟨"DE0 gen", "DE0", "", 7, 3⟩ : CompRow).capital_cost =
      (⟨"DE0 gen", "DE0", "", 7, 3⟩ : CompRow).capital_cost := by
  have t := C10_frame_only_capital_cost ⟨true, false, true, [⟨"DE0 gen", "DE0", "", 7, 3⟩]⟩
    [("FR", 1)] 0
  exact ⟨t.2.2.1.1, t.2.2.2 0 ⟨"DE0 gen", "DE0", "", 7, 3⟩ ⟨"DE0 gen", "DE0", "", 7, 3⟩
    rfl rfl rfl⟩

/-- C8 as stated is false: a row whose `capital_cost` is 0 meets the
adjustment condition (country rate 1 vs global rate 0 differ by more than
0.001), so the per-component function returns 1, yet no row's
`capital_cost` value changed (0 times the annuity ratio is 0). -/
theorem C8_count_counterexample :
    (apply_to_component_improved ⟨false, true, true, [⟨"g1", "", "DE", 0, 1⟩]⟩
        [("DE", 1)] 0).2 = 1 ∧
    (apply_to_component_improved ⟨false, true, true, [⟨"g1", "", "DE", 0, 1⟩]⟩
        [("DE", 1)] 0).1.rows.map CompRow.capital_cost =
      ([⟨"g1", "", "DE", 0, 1⟩] : List CompRow).map CompRow.capital_cost := by
  constructor
  · norm_num [apply_to_component_improved, adjustCond, lookupQ, deriveCountry,
      List.filter_cons, List.find?]
  · norm_num [apply_to_component_improved, adjustRow, lookupQ, deriveCountry, List.find?]

/-- C8 amended: the per-component function returns the number of rows meeting
the adjustment condition (to which the annuity-ratio multiplication was
applied, whether or not the stored value changed), and the network-level
function computes the sum of these counts over generators, storage units,
stores and links (the Python function logs this total and returns `None`;
the embedding exposes it as the second component of the result). -/
theorem C8_amended_adjustment_counts (comp : Component) (net : Network) (cfg : CostsConfig)
    (g : ℚ) (hcc : comp.hasCapitalCost = true)
    (hg : cfg.social_discountrate = some g)
    (hcr : cfg.country_specific_discountrate ≠ []) :
    (apply_to_component_improved comp cfg.country_specific_discountrate g).2 =
      (comp.rows.filter
        (fun row => adjustCond cfg.country_specific_discountrate g comp row)).length ∧
    ∃ p, apply_country_discount_rates_to_network net cfg = some p ∧
      p.2 = (apply_to_component_improved net.generators cfg.country_specific_discountrate g).2 +
            (apply_to_component_improved net.storage_units cfg.country_specific_discountrate g).2 +
            (apply_to_component_improved net.stores cfg.country_specific_discountrate g).2 +
            (apply_to_component_improved net.links cfg.country_specific_discountrate g).2 := by
  have hproc : ∀ c : Component,
      (processComponent c cfg.country_specific_discountrate g).2 =
        (apply_to_component_improved c cfg.country_specific_discountrate g).2 := by
    intro c
    unfold processComponent
    split
    · rename_i hemp
      simp [apply_to_component_improved, hemp]
    · rfl
  constructor
  · rcases he : comp.rows.isEmpty with _ | _
    · simp only [apply_to_component_improved, he, hcc, Bool.false_eq_true, if_false,
        Bool.true_eq_false]
    · simp [apply_to_component_improved, List.isEmpty_iff.mp he]
  · have hne : cfg.country_specific_discountrate.isEmpty = false := by
      rcases h : cfg.country_specific_discountrate.isEmpty with _ | _
      · rfl
      · exact absurd (List.isEmpty_iff.mp h) hcr
    refine ⟨(⟨(processComponent net.generators cfg.country_specific_discountrate g).1,
        (processComponent net.storage_units cfg.country_specific_discountrate g).1,
        (processComponent net.stores cfg.country_specific_discountrate g).1,
        (processComponent net.links cfg.country_specific_discountrate g).1⟩,
        (processComponent net.generators cfg.country_specific_discountrate g).2 +
        (processComponent net.storage_units cfg.country_specific_discountrate g).2 +
        (processComponent net.stores cfg.country_specific_discountrate g).2 +
        (processComponent net.links cfg.country_specific_discountrate g).2), ?_, ?_⟩
    · simp only [apply_country_discount_rates_to_network, hg, hne, Bool.false_eq_true,
        if_false]
    · simp only [hproc]

theorem centralFraction_length (pot : Potential) (pop : List PopRow) (cfs : List ℚ)
    (h : centralFractionPerNode pot pop = some cfs) : cfs.length = pop.length := by
  cases pot with
  | scalar v =>
    simp only [centralFractionPerNode, Option.some.injEq] at h
    rw [← h, List.length_map]
  | mapping m =>
    simp only [centralFractionPerNode] at h
    split at h
    · simp only [Option.some.injEq] at h
      rw [← h, List.length_map]
    · split at h
      · exact absurd h (by simp)
      · simp only [Option.some.injEq] at h
        rw [← h, List.length_map]

theorem build_some_inv (pop : List PopRow) (dhs : List (String × ℚ)) (pot : Potential)
    (p : ℚ) (out : List HeatShareRow)
    (h : build_district_heat_share pop dhs pot p = some out) :
    ∃ cfs, centralFractionPerNode pot pop = some cfs ∧
      out = (pop.zip cfs).map (fun q => projectNode pop dhs p q.1 q.2) := by
  unfold build_district_heat_share at h
  rcases hres : centralFractionPerNode pot pop with _ | cfs
  · rw [hres] at h
    simp at h
  · rw [hres] at h
    simp only [Option.map_some', Option.some.injEq] at h
    exact ⟨cfs, rfl, h.symm⟩

theorem projectNode_dist_mono (pop : List PopRow) (dhs : List (String × ℚ))
    (p1 p2 : ℚ) (hp : p1 ≤ p2) (n : PopRow) (cf : ℚ) :
    (projectNode pop dhs p1 n cf).dist ≤ (projectNode pop dhs p2 n cf).dist := by
  simp only [projectNode]
  exact add_le_add_left (mul_le_mul_of_nonneg_left hp (le_max_left 0 _)) _

theorem projectNode_dist_le (pop : List PopRow) (dhs : List (String × ℚ))
    (p : ℚ) (hp1 : p ≤ 1) (n : PopRow) (cf : ℚ) :
    (projectNode pop dhs p n cf).dist ≤
      max ((lookupQ dhs n.ct).getD 0 * (n.urban / ct_urban pop n.ct) / n.fraction)
        ((projectNode pop dhs p n cf).urban * cf) := by
  simp only [projectNode]
  set share := (lookupQ dhs n.ct).getD 0 with hshare
  set dist0 := share * (n.urban / ct_urban pop n.ct) / n.fraction with hdist0
  set uf := max (n.urban / (n.rural + n.urban)) dist0 with huf
  rcases le_total (uf * cf) dist0 with hcase | hcase
  · rw [max_eq_left (by linarith)]
    simp only [zero_mul, add_zero]
    exact le_max_left dist0 (uf * cf)
  · rw [max_eq_right (by linarith)]
    have hstep : (uf * cf - dist0) * p ≤ (uf * cf - dist0) * 1 :=
      mul_le_mul_of_nonneg_left hp1 (by linarith)
    have : dist0 + (uf * cf - dist0) * p ≤ uf * cf := by linarith
    exact this.trans (le_max_right dist0 (uf * cf))

/-- C2: for every node, the projection computes
`dist_fraction_node = broadcast share × urban_ct_fraction ÷ fraction`
(0 for countries missing from the historical table), raises the urban
fraction to `max(urban_fraction, dist_fraction_node)`, computes
`diff = max(0, urban_final × ceiling − dist_fraction_node)` and outputs the
projected share `dist_fraction_node + diff × progress`. -/
theorem C2_projection_formula (pop : List PopRow) (dhs : List (String × ℚ))
    (pot : Potential) (p : ℚ) (cfs : List ℚ)
    (hres : centralFractionPerNode pot pop = some cfs)
    (i : ℕ) (n : PopRow) (cf : ℚ) (hn : pop[i]? = some n) (hcf : cfs[i]? = some cf) :
    ∃ out, build_district_heat_share pop dhs pot p = some out ∧
      out[i]? = some
        { original := (lookupQ dhs n.ct).getD 0
          dist := (lookupQ dhs n.ct).getD 0 * (n.urban / ct_urban pop n.ct) / n.fraction +
            max 0 (max (n.urban / (n.rural + n.urban))
                ((lookupQ dhs n.ct).getD 0 * (n.urban / ct_urban pop n.ct) / n.fraction) * cf -
              (lookupQ dhs n.ct).getD 0 * (n.urban / ct_urban pop n.ct) / n.fraction) * p
          urban := max (n.urban / (n.rural + n.urban))
            ((lookupQ dhs n.ct).getD 0 * (n.urban / ct_urban pop n.ct) / n.fraction) } := by
  have key : build_district_heat_share pop dhs pot p =
      some ((pop.zip cfs).map (fun q => projectNode pop dhs p q.1 q.2)) := by
    unfold build_district_heat_share
    rw [hres]
    rfl
  refine ⟨_, key, ?_⟩
  rw [List.getElem?_map, zip_getElem?_of_both pop cfs i n cf hn hcf, Option.map_some']
  rfl

/-- Witness for C2: the two-node `DE` layout of the specification scenario
(urban 60/40, `fraction` 0.5/0.5, historical share 0.4, scalar potential 0.5,
progress 1). -/
theorem C2_projection_formula_witness :
    ∃ out, build_district_heat_share
        [⟨"DE0", "DE", 60, 40, 1/2⟩, ⟨"DE1", "DE", 40, 60, 1/2⟩]
        [("DE", 2/5)] (.scalar (1/2)) 1 = some out ∧
      out[0]? = some
        { original := (lookupQ [("DE", 2/5)] "DE").getD 0
          dist := (lookupQ [("DE", 2/5)] "DE").getD 0 *
              ((60 : ℚ) / ct_urban [⟨"DE0", "DE", 60, 40, 1/2⟩, ⟨"DE1", "DE", 40, 60, 1/2⟩] "DE") /
              (1/2) +
            max 0 (max ((60 : ℚ) / (40 + 60))
                ((lookupQ [("DE", 2/5)] "DE").getD 0 *
                  ((60 : ℚ) / ct_urban [⟨"DE0", "DE", 60, 40, 1/2⟩, ⟨"DE1", "DE", 40, 60, 1/2⟩] "DE") /
                  (1/2)) * (1/2) -
              (lookupQ [("DE", 2/5)] "DE").getD 0 *
                ((60 : ℚ) / ct_urban [⟨"DE0", "DE", 60, 40, 1/2⟩, ⟨"DE1", "DE", 40, 60, 1/2⟩] "DE") /
                (1/2)) * 1
          urban := max ((60 : ℚ) / (40 + 60))
            ((lookupQ [("DE", 2/5)] "DE").getD 0 *
              ((60 : ℚ) / ct_urban [⟨"DE0", "DE", 60, 40, 1/2⟩, ⟨"DE1", "DE", 40, 60, 1/2⟩] "DE") /
              (1/2)) } :=
  C2_projection_formula [⟨"DE0", "DE", 60, 40, 1/2⟩, ⟨"DE1", "DE", 40, 60, 1/2⟩]
    [("DE", 2/5)] (.scalar (1/2)) 1 [1/2, 1/2] rfl 0 ⟨"DE0", "DE", 60, 40, 1/2⟩ (1/2) rfl rfl

/-- C3: with a mapping potential, an uncovered country and no `default`
entry abort the projection before any output (`ValueError`); with a
`default` entry every uncovered country's ceiling becomes that default; a
scalar potential applies uniformly to every node. -/
theorem C3_potential_config_resolution (pop : List PopRow) (m : List (String × ℚ))
    (dhs : List (String × ℚ)) (p : ℚ) (v d : ℚ) :
    ((∃ n ∈ pop, lookupQ m n.ct = none) → lookupQ m "default" = none →
      build_district_heat_share pop dhs (.mapping m) p = none) ∧
    (lookupQ m "default" = some d →
      ∃ cfs, centralFractionPerNode (.mapping m) pop = some cfs ∧
        cfs.length = pop.length ∧
        ∀ (i : ℕ) (n : PopRow), pop[i]? = some n → lookupQ m n.ct = none →
          cfs[i]? = some d) ∧
    centralFractionPerNode (.scalar v) pop = some (pop.map (fun _ => v)) := by
  have hmem : ∀ n : PopRow, n ∈ pop → lookupQ m n.ct = none →
      n.ct ∈ (pop.map (fun x => x.ct)).filter (fun c => (lookupQ m c).isNone) := by
    intro n hn hnone
    exact List.mem_filter.mpr ⟨List.mem_map_of_mem _ hn, by simp [hnone]⟩
  refine ⟨?_, ?_, rfl⟩
  · rintro ⟨n, hn, hnone⟩ hdef
    have hunc : ((pop.map (fun x => x.ct)).filter
        (fun c => (lookupQ m c).isNone)).isEmpty = false := by
      rcases h : ((pop.map (fun x => x.ct)).filter
          (fun c => (lookupQ m c).isNone)).isEmpty with _ | _
      · exact h
      · rw [List.isEmpty_iff.mp h] at hmem
        exact absurd (hmem n hn hnone) (List.not_mem_nil _)
    simp only [build_district_heat_share, centralFractionPerNode, hunc, Bool.false_eq_true,
      if_false, hdef, Option.map_none']
  · intro hdef
    by_cases hunc : ((pop.map (fun x => x.ct)).filter
        (fun c => (lookupQ m c).isNone)).isEmpty = true
    · refine ⟨pop.map (fun n => (lookupQ m n.ct).getD 0), ?_, List.length_map _ _, ?_⟩
      · simp only [centralFractionPerNode]
        rw [if_pos hunc]
      · intro i n hn hnone
        rw [List.isEmpty_iff.mp hunc] at hmem
        exact absurd (hmem n (List.getElem?_mem hn) hnone) (List.not_mem_nil _)
    · refine ⟨pop.map (fun n => (lookupQ m n.ct).getD d), ?_, List.length_map _ _, ?_⟩
      · simp only [centralFractionPerNode]
        rw [if_neg hunc, hdef]
      · intro i n hn hnone
        rw [List.getElem?_map, hn, Option.map_some', hnone]
        rfl

/-- Witness for C3: countries `DE`, `FR` with mapping `{DE: 1/2}` (no
default → hard failure), the same mapping plus `default: 3/10`, and the
scalar case. -/
theorem C3_potential_config_resolution_witness :
    build_district_heat_share [⟨"DE0", "DE", 1, 1, 1⟩, ⟨"FR0", "FR", 1, 1, 1⟩] []
      (.mapping [("DE", 1/2)]) 1 = none ∧
    (∃ cfs, centralFractionPerNode (.mapping [("DE", 1/2), ("default", 3/10)])
        [⟨"DE0", "DE", 1, 1, 1⟩, ⟨"FR0", "FR", 1, 1, 1⟩] = some cfs ∧
      cfs.length = 2 ∧
      ∀ (i : ℕ) (n : PopRow),
        ([⟨"DE0", "DE", 1, 1, 1⟩, ⟨"FR0", "FR", 1, 1, 1⟩] : List PopRow)[i]? = some n →
        lookupQ [("DE", 1/2), ("default", 3/10)] n.ct = none → cfs[i]? = some (3/10)) ∧
    centralFractionPerNode (.scalar (1/2)) [⟨"DE0", "DE", 1, 1, 1⟩, ⟨"FR0", "FR", 1, 1, 1⟩] =
      some (([⟨"DE0", "DE", 1, 1, 1⟩, ⟨"FR0", "FR", 1, 1, 1⟩] : List PopRow).map
        (fun _ => (1/2 : ℚ))) := by
  have t1 := (C3_potential_config_resolution [⟨"DE0", "DE", 1, 1, 1⟩, ⟨"FR0", "FR", 1, 1, 1⟩]
    [("DE", 1/2)] [] 1 (1/2) (3/10)).1
  have t2 := (C3_potential_config_resolution [⟨"DE0", "DE", 1, 1, 1⟩, ⟨"FR0", "FR", 1, 1, 1⟩]
    [("DE", 1/2), ("default", 3/10)] [] 1 (1/2) (3/10)).2
  refine ⟨?_, ?_, ?_⟩
  · exact t1 ⟨⟨"FR0", "FR", 1, 1, 1⟩, by simp, rfl⟩ rfl
  · exact t2.1 rfl
  · exact t2.2

/-- Witness for C8 amended: a one-row generators table with a `DE` rate
differing from the global rate, inside a network whose other tables are
empty. -/
theorem C8_amended_adjustment_counts_witness :
    (apply_to_component_improved ⟨false, true, true, [⟨"g1", "", "DE", 2, 1⟩]⟩ [("DE", 1)] 0).2 =
      (([⟨"g1", "", "DE", 2, 1⟩] : List CompRow).filter
        (fun row => adjustCond [("DE", 1)] 0 ⟨false, true, true, [⟨"g1", "", "DE", 2, 1⟩]⟩
          row)).length ∧
    ∃ p, apply_country_discount_rates_to_network
        ⟨⟨false, true, true, [⟨"g1", "", "DE", 2, 1⟩]⟩, ⟨false, true, true, []⟩,
         ⟨false, true, true, []⟩, ⟨false, true, true, []⟩⟩ ⟨[("DE", 1)], some 0⟩ = some p ∧
      p.2 = (apply_to_component_improved ⟨false, true, true, [⟨"g1", "", "DE", 2, 1⟩]⟩
              [("DE", 1)] 0).2 +
            (apply_to_component_improved ⟨false, true, true, []⟩ [("DE", 1)] 0).2 +
            (apply_to_component_improved ⟨false, true, true, []⟩ [("DE", 1)] 0).2 +
            (apply_to_component_improved ⟨false, true, true, []⟩ [("DE", 1)] 0).2 :=
  C8_amended_adjustment_counts ⟨false, true, true, [⟨"g1", "", "DE", 2, 1⟩]⟩
    ⟨⟨false, true, true, [⟨"g1", "", "DE", 2, 1⟩]⟩, ⟨false, true, true, []⟩,
     ⟨false, true, true, []⟩, ⟨false, true, true, []⟩⟩ ⟨[("DE", 1)], some 0⟩ 0
    rfl rfl (by simp)

/-- C7 is refuted as stated: a node whose historical allocation already
exceeds `urban_fraction × ceiling` (share 0.6, urban fraction 0.5, scalar
ceiling 0.5, progress 1) keeps its projected share 0.6, which is larger
than the final urban fraction 0.6 times the ceiling 0.5. -/
theorem C7_ceiling_bound_counterexample :
    ∃ r : HeatShareRow,
      build_district_heat_share [⟨"DE0", "DE", 1, 1, 1⟩] [("DE", 3/5)] (.scalar (1/2)) 1 =
        some [r] ∧ r.urban * (1/2) < r.dist := by
  refine ⟨⟨3/5, 3/5, 3/5⟩, ?_, by norm_num⟩
  show some [projectNode [⟨"DE0", "DE", 1, 1, 1⟩] [("DE", 3/5)] 1 ⟨"DE0", "DE", 1, 1, 1⟩ (1/2)] =
    some [(⟨3/5, 3/5, 3/5⟩ : HeatShareRow)]
  norm_num [projectNode, ct_urban, lookupQ, List.find?, List.filter, HeatShareRow.mk.injEq]

/-- C7 amended: with a progress factor at most 1, the projected share of a
node never exceeds the larger of its initial nodal district-heating share
and `urban_fraction_final × ceiling`; the claimed bound
`urban_fraction_final × ceiling` alone holds only when the initial nodal
share does not already exceed it. -/
theorem C7_amended_ceiling_bound (pop : List PopRow) (dhs : List (String × ℚ))
    (pot : Potential) (p : ℚ) (hp1 : p ≤ 1) (cfs : List ℚ)
    (hres : centralFractionPerNode pot pop = some cfs)
    (i : ℕ) (n : PopRow) (cf : ℚ) (hn : pop[i]? = some n) (hcf : cfs[i]? = some cf)
    (out : List HeatShareRow) (r : HeatShareRow)
    (hout : build_district_heat_share pop dhs pot p = some out) (hr : out[i]? = some r) :
    r.dist ≤ max ((lookupQ dhs n.ct).getD 0 * (n.urban / ct_urban pop n.ct) / n.fraction)
      (r.urban * cf) := by
  obtain ⟨cfs2, hres2, hform⟩ := build_some_inv pop dhs pot p out hout
  rw [hres] at hres2
  injection hres2 with hres2
  subst hres2
  rw [hform, List.getElem?_map, zip_getElem?_of_both pop cfs i n cf hn hcf,
    Option.map_some'] at hr
  injection hr with hr
  rw [← hr]
  exact projectNode_dist_le pop dhs p hp1 n cf

/-- Witness for C7 amended: one `DE` node with historical share 0.2, scalar
ceiling 0.5 and progress 1. -/
theorem C7_amended_ceiling_bound_witness :
    (projectNode [⟨"DE0", "DE", 1, 1, 1⟩] [("DE", 1/5)] 1 ⟨"DE0", "DE", 1, 1, 1⟩ (1/2)).dist ≤
      max ((lookupQ [("DE", 1/5)] "DE").getD 0 *
          ((1 : ℚ) / ct_urban [⟨"DE0", "DE", 1, 1, 1⟩] "DE") / 1)
        ((projectNode [⟨"DE0", "DE", 1, 1, 1⟩] [("DE", 1/5)] 1
            ⟨"DE0", "DE", 1, 1, 1⟩ (1/2)).urban * (1/2)) := by
  exact C7_amended_ceiling_bound [⟨"DE0", "DE", 1, 1, 1⟩] [("DE", 1/5)] (.scalar (1/2)) 1
    (by norm_num) [1/2] rfl 0 ⟨"DE0", "DE", 1, 1, 1⟩ (1/2) rfl rfl _ _ rfl rfl

/-- C9: at fixed population layout, historical shares, potential and
investment year, the projected district-heating share of every node is
monotonically non-decreasing in the progress factor. -/
theorem C9_progress_monotonic (pop : List PopRow) (dhs : List (String × ℚ)) (pot : Potential)
    (p1 p2 : ℚ) (hp : p1 ≤ p2) (out1 out2 : List HeatShareRow)
    (h1 : build_district_heat_share pop dhs pot p1 = some out1)
    (h2 : build_district_heat_share pop dhs pot p2 = some out2)
    (i : ℕ) (r1 r2 : HeatShareRow) (hr1 : out1[i]? = some r1) (hr2 : out2[i]? = some r2) :
    r1.dist ≤ r2.dist := by
  obtain ⟨cfs1, hresa, hforma⟩ := build_some_inv pop dhs pot p1 out1 h1
  obtain ⟨cfs2, hresb, hformb⟩ := build_some_inv pop dhs pot p2 out2 h2
  rw [hresa] at hresb
  injection hresb with hresb
  subst hresb
  rw [hforma, List.getElem?_map] at hr1
  rw [hformb, List.getElem?_map] at hr2
  rcases hq : (pop.zip cfs1)[i]? with _ | q
  · rw [hq] at hr1
    simp at hr1
  · rw [hq, Option.map_some'] at hr1 hr2
    injection hr1 with hr1
    injection hr2 with hr2
    rw [← hr1, ← hr2]
    exact projectNode_dist_mono pop dhs p1 p2 hp q.1 q.2

/-- Witness for C9: one `DE` node, progress 0 versus progress 1. -/
theorem C9_progress_monotonic_witness :
    (projectNode [⟨"DE0", "DE", 1, 1, 1⟩] [("DE", 1/5)] 0 ⟨"DE0", "DE", 1, 1, 1⟩ (1/2)).dist ≤
    (projectNode [⟨"DE0", "DE", 1, 1, 1⟩] [("DE", 1/5)] 1 ⟨"DE0", "DE", 1, 1, 1⟩ (1/2)).dist := by
  exact C9_progress_monotonic [⟨"DE0", "DE", 1, 1, 1⟩] [("DE", 1/5)] (.scalar (1/2)) 0 1
    (by norm_num) _ _ rfl rfl 0 _ _ rfl rfl
